import Mathlib

/-!
Shallow embedding of `src/core/Recoil_State.js`.

The module holds the TreeState / StoreState data model, a module-level
version counter (`let nextTreeStateVersion = 0` together with
`getNextTreeStateVersion = () => nextTreeStateVersion++`) and three
constructors (`makeEmptyTreeState`, `makeStoreState`, `makeEmptyStoreState`).
The mutable module-level counter is embedded as an explicit `AllocState`
threaded through every operation that touches it; JavaScript `Set` and `Map`
containers are embedded as lists (insertion order is observable in JS, and
the constructors under verification only ever build empty containers and a
one-entry map). Side-effecting callback function values (`TreeState => void`,
`Store => void`, promise resolvers) are embedded as opaque unit tokens:
every claim about their containers concerns emptiness only.
-/

namespace RecoilState

abbrev NodeKey := String
abbrev ComponentID := Nat
abbrev Version := Nat

/-- The `Loadable` tri-state box from `Recoil_Loadable` (interface only):
resolved with a value, pending, or resolved with an error. -/
inductive Loadable where
  | hasValue (v : Int)
  | loading
  | hasError (e : String)
deriving DecidableEq, Repr

/-- Modelled from the spec: the `graph()` constructor required by
`makeStoreState` comes from `Recoil_Graph`, which is not part of the sources
under review. The spec describes a Graph as a per-version directed graph
whose nodes are NodeKeys and whose edges point from a dependency to each of
its dependents, with `emptyGraph() -> Graph` producing the empty graph. -/
structure Graph where
  edges : List (NodeKey × NodeKey)
deriving DecidableEq, Repr

/-- Modelled from the spec: `emptyGraph() -> Graph` (the `graph` import of
`Recoil_State.js`) produces a graph with no edges. -/
def graph : Graph := { edges := [] }

/-- Opaque token standing for a `TreeState => void` callback value. -/
abbrev ComponentCallback := Unit

/-- Opaque token standing for a `Store => void` callback value. -/
abbrev StoreCallback := Unit

/-- Opaque token standing for a `() => void` suspension resolver value. -/
abbrev Resolver := Unit

/-- `TreeState`: an immutable snapshot of a rendered tree.
`transactionMetadata` is a plain object `{...}`, embedded as an association
list; `nonvalidatedAtoms` holds `mixed` payloads, embedded as strings. -/
structure TreeState where
  version : Version
  transactionMetadata : List (String × String)
  dirtyAtoms : List NodeKey
  atomValues : List (NodeKey × Loadable)
  nonvalidatedAtoms : List (NodeKey × String)
deriving DecidableEq, Repr

/-- `StoreState`: the mutable per-root container. Field order follows the
type declaration in the source. -/
structure StoreState where
  currentTree : TreeState
  nextTree : Option TreeState
  knownAtoms : List NodeKey
  knownSelectors : List NodeKey
  versionsUsedByComponent : List (ComponentID × Version)
  nodeToComponentSubscriptions :
    List (NodeKey × List (ComponentID × (String × ComponentCallback)))
  graphsByVersion : List (Version × Graph)
  transactionSubscriptions : List (Nat × StoreCallback)
  nodeTransactionSubscriptions : List (NodeKey × List StoreCallback)
  queuedComponentCallbacks : List ComponentCallback
  suspendedComponentResolvers : List Resolver
deriving DecidableEq, Repr

/-- State of the module-level counter `let nextTreeStateVersion`. -/
structure AllocState where
  nextTreeStateVersion : Nat
deriving DecidableEq, Repr

/-- The counter's value when the module loads: `let nextTreeStateVersion = 0`. -/
def initAlloc : AllocState := { nextTreeStateVersion := 0 }

/-- `const getNextTreeStateVersion = (): Version => nextTreeStateVersion++`:
returns the current counter value and bumps the counter. -/
def getNextTreeStateVersion (s : AllocState) : Version × AllocState :=
  (s.nextTreeStateVersion, { nextTreeStateVersion := s.nextTreeStateVersion + 1 })

/-- `function makeEmptyTreeState(): TreeState`. -/
def makeEmptyTreeState (s : AllocState) : TreeState × AllocState :=
  let p := getNextTreeStateVersion s
  ({ version := p.1
     transactionMetadata := []
     dirtyAtoms := []
     atomValues := []
     nonvalidatedAtoms := [] }, p.2)

/-- `function makeStoreState(treeState: TreeState): StoreState`. -/
def makeStoreState (treeState : TreeState) : StoreState :=
  { currentTree := treeState
    nextTree := none
    knownAtoms := []
    knownSelectors := []
    transactionSubscriptions := []
    nodeTransactionSubscriptions := []
    queuedComponentCallbacks := []
    suspendedComponentResolvers := []
    nodeToComponentSubscriptions := []
    graphsByVersion := [(treeState.version, graph)]
    versionsUsedByComponent := [] }

/-- `function makeEmptyStoreState(): StoreState`:
`return makeStoreState(makeEmptyTreeState())`. -/
def makeEmptyStoreState (s : AllocState) : StoreState × AllocState :=
  let p := makeEmptyTreeState s
  (makeStoreState p.1, p.2)

/-- State-passing form of `makeStoreState`: the source body contains no
access to the module counter, so the allocator state passes through. -/
def makeStoreStateS (treeState : TreeState) (s : AllocState) :
    StoreState × AllocState :=
  (makeStoreState treeState, s)

/-- Allocator state after `n` calls to `getNextTreeStateVersion` starting
from module load. -/
def allocStateAfter : Nat → AllocState
  | 0 => initAlloc
  | n + 1 => (getNextTreeStateVersion (allocStateAfter n)).2

/-- Value returned by the `(n+1)`-st call to `getNextTreeStateVersion` in a
runtime instance. -/
def allocAt (n : Nat) : Version := (getNextTreeStateVersion (allocStateAfter n)).1

/-- Trace of repeated `makeEmptyTreeState` calls from module load, each call
threading the counter left by the previous one (the counter is module-level,
so calls on behalf of different stores share it). -/
def emptyTreeTrace : Nat → TreeState × AllocState
  | 0 => makeEmptyTreeState initAlloc
  | n + 1 => makeEmptyTreeState (emptyTreeTrace n).2

lemma allocStateAfter_counter (n : Nat) :
    (allocStateAfter n).nextTreeStateVersion = n := by
  induction n with
  | zero => rfl
  | succ n ih => simp [allocStateAfter, getNextTreeStateVersion, ih]

lemma allocAt_eq (n : Nat) : allocAt n = n := by
  simp [allocAt, getNextTreeStateVersion, allocStateAfter_counter]

lemma emptyTreeTrace_counter (n : Nat) :
    (emptyTreeTrace n).2.nextTreeStateVersion = n + 1 := by
  induction n with
  | zero => rfl
  | succ n ih =>
    simp [emptyTreeTrace, makeEmptyTreeState, getNextTreeStateVersion, ih]

lemma emptyTreeTrace_version (n : Nat) : (emptyTreeTrace n).1.version = n := by
  cases n with
  | zero => rfl
  | succ n =>
    simp [emptyTreeTrace, makeEmptyTreeState, getNextTreeStateVersion,
      emptyTreeTrace_counter]

/-- Invariant of the spec: `nextTree`, when present, has
`version > currentTree.version`. -/
def nextTreeOk (σ : StoreState) : Bool :=
  match σ.nextTree with
  | none => true
  | some t => decide (σ.currentTree.version < t.version)

/-- The module counter is strictly ahead of every version stored in the
store.  This holds in every state reachable from the constructors because
versions are only ever obtained from the allocator. -/
def allocConsistent (σ : StoreState) (s : AllocState) : Bool :=
  decide (σ.currentTree.version < s.nextTreeStateVersion) &&
    (match σ.nextTree with
     | none => true
     | some t => decide (t.version < s.nextTreeStateVersion))

/-- Modelled from the spec: the store façade's `replaceState` is declared but
not implemented in the sources under review.  Per the spec it applies
`update` to the latest pending snapshot (`nextTree` when a transaction is
pending, otherwise `currentTree`), the candidate's version is a freshly
allocated version, and the candidate is installed as `nextTree`. -/
def replaceState (update : TreeState → TreeState) (σ : StoreState)
    (s : AllocState) : StoreState × AllocState :=
  let base := σ.nextTree.getD σ.currentTree
  let p := getNextTreeStateVersion s
  let candidate : TreeState := { update base with version := p.1 }
  ({ σ with nextTree := some candidate }, p.2)

/-- Modelled from the spec: transaction commit is not implemented in the
sources under review.  Per the spec it promotes `nextTree` to `currentTree`
and clears `nextTree`; with no transaction pending it changes nothing. -/
def commitTransaction (σ : StoreState) : StoreState :=
  match σ.nextTree with
  | none => σ
  | some t => { σ with currentTree := t, nextTree := none }

/-- The TreeState a store holds for a given version, when it holds one. -/
def lookupVersion (σ : StoreState) (v : Version) : Option TreeState :=
  if σ.currentTree.version = v then some σ.currentTree
  else
    match σ.nextTree with
    | some t => if t.version = v then some t else none
    | none => none

lemma replaceState_currentTree (u : TreeState → TreeState) (σ : StoreState)
    (s : AllocState) : (replaceState u σ s).1.currentTree = σ.currentTree := rfl

lemma replaceState_nextTree (u : TreeState → TreeState) (σ : StoreState)
    (s : AllocState) :
    (replaceState u σ s).1.nextTree =
      some { u (σ.nextTree.getD σ.currentTree) with
             version := s.nextTreeStateVersion } := rfl

lemma replaceState_alloc (u : TreeState → TreeState) (σ : StoreState)
    (s : AllocState) :
    (replaceState u σ s).2.nextTreeStateVersion = s.nextTreeStateVersion + 1 := rfl

lemma nextTreeOk_none (σ : StoreState) (h : σ.nextTree = none) :
    nextTreeOk σ = true := by
  unfold nextTreeOk; rw [h]

lemma nextTreeOk_some (σ : StoreState) (t : TreeState) (h : σ.nextTree = some t) :
    nextTreeOk σ = decide (σ.currentTree.version < t.version) := by
  unfold nextTreeOk; rw [h]

lemma allocConsistent_none (σ : StoreState) (s : AllocState)
    (h : σ.nextTree = none) :
    allocConsistent σ s = decide (σ.currentTree.version < s.nextTreeStateVersion) := by
  unfold allocConsistent; rw [h]; simp

lemma allocConsistent_some (σ : StoreState) (s : AllocState) (t : TreeState)
    (h : σ.nextTree = some t) :
    allocConsistent σ s =
      (decide (σ.currentTree.version < s.nextTreeStateVersion) &&
        decide (t.version < s.nextTreeStateVersion)) := by
  unfold allocConsistent; rw [h]

lemma commitTransaction_none (σ : StoreState) (h : σ.nextTree = none) :
    commitTransaction σ = σ := by
  unfold commitTransaction; rw [h]

lemma commitTransaction_some (σ : StoreState) (t : TreeState)
    (h : σ.nextTree = some t) :
    commitTransaction σ = { σ with currentTree := t, nextTree := none } := by
  unfold commitTransaction; rw [h]

/-- C1: `getNextTreeStateVersion` is strictly monotone from origin 0: within
one runtime instance the first call returns 0, and each call returns a value
strictly greater than every earlier return value. -/
theorem getNextTreeStateVersion_strictMono :
    allocAt 0 = 0 ∧ ∀ i j : Nat, i < j → allocAt i < allocAt j := by
  refine ⟨rfl, fun i j h => ?_⟩
  simpa [allocAt_eq] using h

/-- Witness for C1 at the calls numbered 1 and 2. -/
theorem getNextTreeStateVersion_strictMono_witness :
    (1 : Nat) < 2 ∧ allocAt 1 < allocAt 2 :=
  ⟨by decide, getNextTreeStateVersion_strictMono.2 1 2 (by decide)⟩

/-- C2 counterexample: the claim fails for every store initialization other
than the first of the runtime — the version counter is module-level and
shared across stores, so the second call to `makeEmptyStoreState()` in one
process yields `currentTree.version = 1`, not 0. -/
theorem makeEmptyStoreState_second_version :
    (makeEmptyStoreState (makeEmptyStoreState initAlloc).2).1.currentTree.version = 1 ∧
    (makeEmptyStoreState (makeEmptyStoreState initAlloc).2).1.currentTree.version ≠ 0 :=
  ⟨rfl, by decide⟩

/-- C2 amended: a store initialization from allocator state `s` yields a
StoreState with `currentTree.version` equal to the freshly allocated version
(the counter value in `s`), no `nextTree`, and exactly one `graphsByVersion`
entry, keyed by that version; in particular the first initialization of the
runtime, from the fresh module state, has `currentTree.version = 0` and one
`graphsByVersion` entry keyed by version 0. -/
theorem makeEmptyStoreState_amended (s : AllocState) :
    (makeEmptyStoreState s).1.currentTree.version = s.nextTreeStateVersion ∧
    (makeEmptyStoreState s).1.nextTree = none ∧
    (makeEmptyStoreState s).1.graphsByVersion = [(s.nextTreeStateVersion, graph)] ∧
    (makeEmptyStoreState initAlloc).1.currentTree.version = 0 ∧
    (makeEmptyStoreState initAlloc).1.graphsByVersion = [(0, graph)] :=
  ⟨rfl, rfl, rfl, rfl, rfl⟩

/-- C3: `makeStoreState t` installs `t` as `currentTree`, has no `nextTree`,
has every other set, map and queue empty, and seeds `graphsByVersion` with
exactly one empty graph keyed by `t.version`. -/
theorem makeStoreState_fields (t : TreeState) :
    (makeStoreState t).currentTree = t ∧
    (makeStoreState t).nextTree = none ∧
    (makeStoreState t).knownAtoms = [] ∧
    (makeStoreState t).knownSelectors = [] ∧
    (makeStoreState t).versionsUsedByComponent = [] ∧
    (makeStoreState t).nodeToComponentSubscriptions = [] ∧
    (makeStoreState t).transactionSubscriptions = [] ∧
    (makeStoreState t).nodeTransactionSubscriptions = [] ∧
    (makeStoreState t).queuedComponentCallbacks = [] ∧
    (makeStoreState t).suspendedComponentResolvers = [] ∧
    (makeStoreState t).graphsByVersion = [(t.version, graph)] :=
  ⟨rfl, rfl, rfl, rfl, rfl, rfl, rfl, rfl, rfl, rfl, rfl⟩

/-- C4: `makeEmptyTreeState` returns a TreeState with empty dirty-atom set,
atom-value map, nonvalidated map and transaction metadata, whose version is
the one freshly allocated by `getNextTreeStateVersion`; its only effect is
the allocator advance performed by that call. -/
theorem makeEmptyTreeState_spec (s : AllocState) :
    (makeEmptyTreeState s).1.version = (getNextTreeStateVersion s).1 ∧
    (makeEmptyTreeState s).1.transactionMetadata = [] ∧
    (makeEmptyTreeState s).1.dirtyAtoms = [] ∧
    (makeEmptyTreeState s).1.atomValues = [] ∧
    (makeEmptyTreeState s).1.nonvalidatedAtoms = [] ∧
    (makeEmptyTreeState s).2 = (getNextTreeStateVersion s).2 :=
  ⟨rfl, rfl, rfl, rfl, rfl, rfl⟩

/-- C5: distinct calls to `makeEmptyTreeState` within one process (the
counter is module-level, hence shared across stores) produce TreeStates
with distinct versions. -/
theorem emptyTreeTrace_versions_distinct (i j : Nat) (h : i ≠ j) :
    (emptyTreeTrace i).1.version ≠ (emptyTreeTrace j).1.version := by
  simpa [emptyTreeTrace_version] using h

/-- Witness for C5 at the first and second calls. -/
theorem emptyTreeTrace_versions_distinct_witness :
    (0 : Nat) ≠ 1 ∧ (emptyTreeTrace 0).1.version ≠ (emptyTreeTrace 1).1.version :=
  ⟨by decide, emptyTreeTrace_versions_distinct 0 1 (by decide)⟩

/-- C6: whenever `nextTree` is present its version exceeds
`currentTree.version`: the invariant is established by both constructors
(which set `nextTree` to none) and preserved by the spec-modelled protocol
operations `replaceState` (under allocator consistency, which the
constructors also establish and `replaceState` maintains) and
`commitTransaction`. -/
theorem nextTree_version_invariant :
    (∀ t : TreeState, nextTreeOk (makeStoreState t) = true) ∧
    (∀ s : AllocState,
        nextTreeOk (makeEmptyStoreState s).1 = true ∧
        allocConsistent (makeEmptyStoreState s).1 (makeEmptyStoreState s).2 = true) ∧
    (∀ (u : TreeState → TreeState) (σ : StoreState) (s : AllocState),
        allocConsistent σ s = true →
        nextTreeOk (replaceState u σ s).1 = true ∧
        allocConsistent (replaceState u σ s).1 (replaceState u σ s).2 = true) ∧
    (∀ σ : StoreState, nextTreeOk σ = true →
        nextTreeOk (commitTransaction σ) = true) := by
  refine ⟨fun t => rfl, fun s => ⟨rfl, ?_⟩, ?_, ?_⟩
  · rw [allocConsistent_none _ _ rfl]
    exact decide_eq_true (Nat.lt_succ_self s.nextTreeStateVersion)
  · intro u σ s hc
    have hcur : σ.currentTree.version < s.nextTreeStateVersion := by
      cases hnt : σ.nextTree with
      | none =>
        rw [allocConsistent_none σ s hnt] at hc
        simpa using hc
      | some t =>
        rw [allocConsistent_some σ s t hnt] at hc
        simp only [Bool.and_eq_true, decide_eq_true_eq] at hc
        exact hc.1
    refine ⟨?_, ?_⟩
    · rw [nextTreeOk_some _ _ (replaceState_nextTree u σ s)]
      simp only [decide_eq_true_eq, replaceState_currentTree]
      exact hcur
    · rw [allocConsistent_some _ _ _ (replaceState_nextTree u σ s)]
      simp only [Bool.and_eq_true, decide_eq_true_eq, replaceState_currentTree,
        replaceState_alloc]
      exact ⟨Nat.lt_succ_of_lt hcur, Nat.lt_succ_self _⟩
  · intro σ h
    cases hnt : σ.nextTree with
    | none => rw [commitTransaction_none σ hnt]; exact h
    | some t =>
      rw [commitTransaction_some σ t hnt]
      exact nextTreeOk_none _ rfl

/-- Witness for C6: the invariant survives a `replaceState` followed by a
`commitTransaction` on the freshly constructed empty store. -/
theorem nextTree_version_invariant_witness :
    allocConsistent (makeEmptyStoreState initAlloc).1
        (makeEmptyStoreState initAlloc).2 = true ∧
    nextTreeOk (replaceState id (makeEmptyStoreState initAlloc).1
        (makeEmptyStoreState initAlloc).2).1 = true ∧
    nextTreeOk (commitTransaction (replaceState id
        (makeEmptyStoreState initAlloc).1
        (makeEmptyStoreState initAlloc).2).1) = true :=
  ⟨by decide,
   (nextTree_version_invariant.2.2.1 id (makeEmptyStoreState initAlloc).1
      (makeEmptyStoreState initAlloc).2 (by decide)).1,
   nextTree_version_invariant.2.2.2 _
     ((nextTree_version_invariant.2.2.1 id (makeEmptyStoreState initAlloc).1
        (makeEmptyStoreState initAlloc).2 (by decide)).1)⟩

/-- C7: an already-constructed TreeState is never mutated: `makeStoreState`
installs its argument unchanged, and whenever a store still holds a tree for
a version after a spec-modelled protocol operation, it is value-equal to the
tree held for that version before the operation. -/
theorem treeState_immutable :
    (∀ t : TreeState, (makeStoreState t).currentTree = t) ∧
    (∀ (u : TreeState → TreeState) (σ : StoreState) (s : AllocState)
        (v : Version) (t1 t2 : TreeState),
        allocConsistent σ s = true →
        lookupVersion σ v = some t1 →
        lookupVersion (replaceState u σ s).1 v = some t2 → t2 = t1) ∧
    (∀ (σ : StoreState) (v : Version) (t1 t2 : TreeState),
        nextTreeOk σ = true →
        lookupVersion σ v = some t1 →
        lookupVersion (commitTransaction σ) v = some t2 → t2 = t1) := by
  refine ⟨fun t => rfl, ?_, ?_⟩
  · intro u σ s v t1 t2 hc h1 h2
    by_cases hcv : σ.currentTree.version = v
    · simp only [lookupVersion, if_pos hcv] at h1
      simp only [lookupVersion, replaceState_currentTree, if_pos hcv] at h2
      exact (Option.some.inj h2).symm.trans (Option.some.inj h1)
    · simp only [lookupVersion, if_neg hcv] at h1
      simp only [lookupVersion, replaceState_currentTree, replaceState_nextTree,
        if_neg hcv] at h2
      cases hnt : σ.nextTree with
      | none =>
        simp only [hnt] at h1
        exact Option.noConfusion h1
      | some t =>
        rw [allocConsistent_some σ s t hnt] at hc
        simp only [Bool.and_eq_true, decide_eq_true_eq] at hc
        simp only [hnt] at h1
        by_cases htv : t.version = v
        · rw [if_pos htv] at h1
          have hv : ¬s.nextTreeStateVersion = v := by
            intro e
            rw [htv, e] at hc
            exact Nat.lt_irrefl v hc.2
          rw [if_neg hv] at h2
          exact Option.noConfusion h2
        · rw [if_neg htv] at h1
          exact Option.noConfusion h1
  · intro σ v t1 t2 h h1 h2
    cases hnt : σ.nextTree with
    | none =>
      rw [commitTransaction_none σ hnt, h1] at h2
      exact (Option.some.inj h2).symm
    | some t =>
      rw [nextTreeOk_some σ t hnt] at h
      simp only [decide_eq_true_eq] at h
      rw [commitTransaction_some σ t hnt] at h2
      simp only [lookupVersion] at h1 h2
      by_cases htv : t.version = v
      · rw [if_pos htv] at h2
        by_cases hcv : σ.currentTree.version = v
        · rw [hcv, htv] at h
          exact absurd h (Nat.lt_irrefl v)
        · rw [if_neg hcv] at h1
          simp only [hnt] at h1
          rw [if_pos htv] at h1
          exact (Option.some.inj h2).symm.trans (Option.some.inj h1)
      · rw [if_neg htv] at h2
        exact Option.noConfusion h2

/-- Witness for C7: the tree held for version 0 before and after a
`replaceState` on the fresh empty store is the same value. -/
theorem treeState_immutable_witness :
    lookupVersion (makeEmptyStoreState initAlloc).1 0 =
      some (makeEmptyTreeState initAlloc).1 ∧
    (makeEmptyTreeState initAlloc).1 = (makeEmptyTreeState initAlloc).1 :=
  ⟨by decide,
   treeState_immutable.2.1 id (makeEmptyStoreState initAlloc).1
     (makeEmptyStoreState initAlloc).2 0
     (makeEmptyTreeState initAlloc).1 (makeEmptyTreeState initAlloc).1
     (by decide) (by decide) (by decide)⟩

/-- C8: `makeEmptyStoreState` is exactly `makeStoreState` composed with
`makeEmptyTreeState`, evaluated from the same allocator state. -/
theorem makeEmptyStoreState_composition (s : AllocState) :
    makeEmptyStoreState s =
      (makeStoreState (makeEmptyTreeState s).1, (makeEmptyTreeState s).2) := rfl

/-- C9: version allocation is consecutive: the call after one returning `v`
returns `v + 1`, and the sequence of allocated versions from module load is
exactly 0, 1, 2, .... -/
theorem getNextTreeStateVersion_consecutive :
    (∀ s : AllocState,
        (getNextTreeStateVersion (getNextTreeStateVersion s).2).1 =
          (getNextTreeStateVersion s).1 + 1) ∧
    ∀ n : Nat, allocAt n = n :=
  ⟨fun _ => rfl, allocAt_eq⟩

/-- C10: `makeStoreState` has no effect beyond its result: in state-passing
form it leaves the allocator state untouched (allocating no version), and it
installs the argument TreeState itself, unchanged, as `currentTree`. -/
theorem makeStoreState_frame (t : TreeState) (s : AllocState) :
    (makeStoreStateS t s).2 = s ∧
    (makeStoreStateS t s).1 = makeStoreState t ∧
    (makeStoreState t).currentTree = t :=
  ⟨rfl, rfl, rfl⟩

end RecoilState
